import Mathlib

/-!
Verification of the django-iprestrict rule-evaluation engine.

The repository ships `iprestrict/middleware.py` (embedded below as
`process_request`) together with a test suite for `iprestrict/models.py`.
The models module itself is not part of the source tree, so the rule,
IP-group and rank-management operations are modelled from the
specification (`spec.md`), faithful to its words; the middleware is
translated from the Python source.
-/

namespace IPRestrict

/-! ## Character-list utilities (used by the IP and country-code parsers) -/

/-- Split a character list on a separator character; `[]` yields `[[]]`,
mirroring the usual string-split semantics. -/
def splitOnChar (c : Char) : List Char → List (List Char)
  | [] => [[]]
  | x :: xs =>
    let r := splitOnChar c xs
    if x = c then [] :: r
    else
      match r with
      | [] => [[x]]
      | g :: gs => (x :: g) :: gs

/-- Option-valued map over a list; `none` as soon as one element fails. -/
def mapO (f : α → Option β) : List α → Option (List β)
  | [] => some []
  | x :: xs =>
    match f x, mapO f xs with
    | some y, some ys => some (y :: ys)
    | _, _ => none

/-! ## IP address parsing

Modelled from the spec: `models.py` is missing from the tree; §4.2 says
`matches` "parses `ip` into its family and numeric form; fails to match
(returns false) if the string does not parse as a valid address". -/

inductive IPFamily where
  | v4 : IPFamily
  | v6 : IPFamily
deriving DecidableEq

/-- Bits of an address of the given family. -/
def famBits : IPFamily → Nat
  | IPFamily.v4 => 32
  | IPFamily.v6 => 128

/-- Decimal value of a digit list, `none` if empty or non-digits. -/
def parseDecimal (l : List Char) : Option Nat :=
  if l.isEmpty then none
  else if l.all Char.isDigit then
    some (l.foldl (fun acc c => acc * 10 + (c.toNat - 48)) 0)
  else none

/-- One dotted-quad octet: one to three digits, value at most 255. -/
def parseOctet (l : List Char) : Option Nat :=
  match parseDecimal l with
  | none => none
  | some n => if n ≤ 255 then if l.length ≤ 3 then some n else none else none

/-- Numeric form of a dotted-quad IPv4 address. -/
def parseIPv4 (l : List Char) : Option Nat :=
  match mapO parseOctet (splitOnChar '.' l) with
  | some [a, b, c, d] => some (((a * 256 + b) * 256 + c) * 256 + d)
  | _ => none

/-- Value of one hexadecimal digit. -/
def hexVal (c : Char) : Option Nat :=
  if c.isDigit then some (c.toNat - 48)
  else if c ≥ 'a' then if c ≤ 'f' then some (c.toNat - 87) else none
  else if c ≥ 'A' then if c ≤ 'F' then some (c.toNat - 55) else none
  else none

/-- One 16-bit IPv6 group: one to four hex digits. -/
def parseHexGroup (l : List Char) : Option Nat :=
  if l.isEmpty then none
  else if l.length ≤ 4 then
    l.foldl
      (fun acc c =>
        match acc, hexVal c with
        | some a, some v => some (a * 16 + v)
        | _, _ => none)
      (some 0)
  else none

/-- Split a group list at its first empty group. -/
def splitAtFirstEmpty : List (List Char) → Option (List (List Char) × List (List Char))
  | [] => none
  | g :: gs =>
    if g.isEmpty then some ([], gs)
    else
      match splitAtFirstEmpty gs with
      | none => none
      | some (pre, post) => some (g :: pre, post)

/-- Locate the groups on either side of the single `::` compression of an
IPv6 literal; `none` when the colon structure is invalid. -/
def gapSplit (parts : List (List Char)) : Option (List (List Char) × List (List Char)) :=
  match parts with
  | [] :: [] :: rest =>
    if rest.isEmpty then none
    else if rest = [[]] then some ([], [])
    else if rest.any List.isEmpty then none
    else some ([], rest)
  | _ =>
    match splitAtFirstEmpty parts with
    | none => none
    | some (pre, post) =>
      if pre.isEmpty then none
      else if post = [[]] then some (pre, [])
      else if post.isEmpty then none
      else if post.any List.isEmpty then none
      else some (pre, post)

/-- Fold eight 16-bit groups into the 128-bit numeric form. -/
def groupsToNat (gs : List Nat) : Nat :=
  gs.foldl (fun acc g => acc * 65536 + g) 0

/-- Numeric form of a colon-separated IPv6 address, with at most one `::`. -/
def parseIPv6 (l : List Char) : Option Nat :=
  let parts := splitOnChar ':' l
  if parts.any List.isEmpty then
    match gapSplit parts with
    | none => none
    | some (pre, post) =>
      if pre.length + post.length ≤ 7 then
        match mapO parseHexGroup pre, mapO parseHexGroup post with
        | some gs1, some gs2 =>
          some (groupsToNat (gs1 ++ List.replicate (8 - gs1.length - gs2.length) 0 ++ gs2))
        | _, _ => none
      else none
  else if parts.length = 8 then
    (mapO parseHexGroup parts).map groupsToNat
  else none

/-- Parse an IP literal into its family and numeric form. -/
def parseIP (s : String) : Option (IPFamily × Nat) :=
  let l := s.toList
  if l.contains ':' then (parseIPv6 l).map (fun n => (IPFamily.v6, n))
  else (parseIPv4 l).map (fun n => (IPFamily.v4, n))

/-! ## RangeGroup

Modelled from the spec, §3 and §4.2: an `IPRange` is compiled into a
numeric pair; the group keeps two ascending-sorted lists of pairs, one per
family; `matches` is an inclusive containment test over the family's list. -/

structure IPRange where
  first_ip : String
  last_ip : Option String
  cidr_prefix_length : Option Nat
deriving DecidableEq

/-- Mask with `p` leading one-bits for the family. -/
def maskOf (fam : IPFamily) (p : Nat) : Nat :=
  2 ^ famBits fam - 2 ^ (famBits fam - p)

/-- Modelled from the spec: if `cidrPrefixLength` is given the effective
range is `[firstIP & mask, firstIP | ~mask]`, the mask applied to
`firstIP` exactly as given; with `lastIP` the pair is taken literally;
otherwise the range is the single address. Unparseable literals are a
configuration error (`none`). -/
def compileRange (r : IPRange) : Option (IPFamily × Nat × Nat) :=
  match parseIP r.first_ip with
  | none => none
  | some (fam, n) =>
    match r.cidr_prefix_length with
    | some p =>
      if p ≤ famBits fam then
        some (fam, n.land (maskOf fam p), n.lor (2 ^ (famBits fam - p) - 1))
      else none
    | none =>
      match r.last_ip with
      | some s2 =>
        match parseIP s2 with
        | some (fam2, m) => if fam2 = fam then some (fam, n, m) else none
        | none => none
      | none => some (fam, n, n)

structure RangeGroup where
  v4ranges : List (Nat × Nat)
  v6ranges : List (Nat × Nat)
deriving DecidableEq

/-- Insert a range into a list kept ascending by lower bound. -/
def insertRange (r : Nat × Nat) : List (Nat × Nat) → List (Nat × Nat)
  | [] => [r]
  | x :: xs => if r.1 ≤ x.1 then r :: x :: xs else x :: insertRange r xs

/-- Sort ranges ascending by lower bound (insertion sort). -/
def sortRanges (l : List (Nat × Nat)) : List (Nat × Nat) :=
  l.foldr insertRange []

/-- Modelled from the spec: compile all `IPRange` entries into the two
sorted numeric-range lists, one per address family. -/
def load_ranges (rs : List IPRange) : Option RangeGroup :=
  match mapO compileRange rs with
  | none => none
  | some cs =>
    some
      { v4ranges :=
          sortRanges (cs.filterMap (fun c => if c.1 = IPFamily.v4 then some c.2 else none))
        v6ranges :=
          sortRanges (cs.filterMap (fun c => if c.1 = IPFamily.v6 then some c.2 else none)) }

/-- The compiled list for a family. -/
def rangesOf (g : RangeGroup) : IPFamily → List (Nat × Nat)
  | IPFamily.v4 => g.v4ranges
  | IPFamily.v6 => g.v6ranges

/-- Modelled from the spec: parse the address; on failure no match; else
true iff some range `[lo, hi]` of the address's family has
`lo ≤ ip ≤ hi`, inclusive on both ends. -/
def RangeGroup.matches (g : RangeGroup) (ip : String) : Bool :=
  match parseIP ip with
  | none => false
  | some (fam, n) => (rangesOf g fam).any (fun r => decide (r.1 ≤ n ∧ n ≤ r.2))

/-! ## LocationGroup

Modelled from the spec, §3 and §4.3: entries hold comma-separated
country-code lists, compiled to a flat set of trimmed upper-cased codes;
matching resolves the IP through the external geolocation collaborator. -/

/-- Strip leading and trailing whitespace. -/
def trimChars (l : List Char) : List Char :=
  ((l.dropWhile Char.isWhitespace).reverse.dropWhile Char.isWhitespace).reverse

/-- Trim and upper-case one country code. -/
def normalizeCode (l : List Char) : String :=
  String.mk ((trimChars l).map Char.toUpper)

/-- Modelled from the spec: normalize the configured comma-separated
country-code strings into the compiled flat code set. -/
def load_locations (entries : List String) : List String :=
  (entries.map (fun e => ((splitOnChar ',' e.toList).map normalizeCode).filter
      (fun s => !s.isEmpty))).flatten

structure LocationGroup where
  codes : List String
deriving DecidableEq

/-- Modelled from the spec: resolve the IP via the external geolocation
collaborator (`geoip`); true iff a code was resolved and is a member of
the compiled set. -/
def LocationGroup.matches (geoip : String → Option String) (g : LocationGroup)
    (ip : String) : Bool :=
  match geoip ip with
  | none => false
  | some c => g.codes.contains c

/-! ## Rule and rank management

Modelled from the spec, §3 and §4.4. A rule owns a URL pattern, a
reference to its IP group, an action and a rank; the rule store is kept in
insertion order, rules being addressed by their position in it. -/

inductive Action where
  | allow : Action
  | deny : Action
deriving DecidableEq

structure Rule where
  url_pattern : String
  ip_group : String
  action : Action
  rank : Nat
deriving DecidableEq

/-- Modelled from the spec: `isAllowed` is a pure function of `action`. -/
def Rule.is_allowed (r : Rule) : Bool :=
  match r.action with
  | Action.allow => true
  | Action.deny => false

/-- Modelled from the spec: `isRestricted` is a pure function of `action`. -/
def Rule.is_restricted (r : Rule) : Bool :=
  match r.action with
  | Action.allow => false
  | Action.deny => true

namespace RuleSet

/-- Modelled from the spec: the rank auto-assigned on creation,
`max(existing ranks) + 1`, starting at 1 when no rule exists. -/
def next_rank (rs : List Rule) : Nat :=
  (rs.map Rule.rank).foldl max 0 + 1

/-- Modelled from the spec: append a new rule; an omitted rank is
auto-assigned as `next_rank`, an explicit rank is used as-is. -/
def create (rs : List Rule) (pat grp : String) (act : Action)
    (rank? : Option Nat) : List Rule :=
  rs ++ [{ url_pattern := pat, ip_group := grp, action := act,
           rank := rank?.getD (next_rank rs) }]

/-- Modelled from the spec: persist changes to pattern/group/action
without altering the rank. -/
def update (r : Rule) (pat grp : String) (act : Action) : Rule :=
  { r with url_pattern := pat, ip_group := grp, action := act }

/-- Modelled from the spec: exchange ranks with the rule holding the
next-higher rank (the immediate successor in sorted order); no-op when
the rule already holds the highest rank. -/
def move_down (rs : List Rule) (i : Nat) : List Rule :=
  match rs[i]? with
  | none => rs
  | some a =>
    match ((rs.map Rule.rank).filter (fun x => decide (a.rank < x))).min? with
    | none => rs
    | some s =>
      match rs.findIdx? (fun b => decide (b.rank = s)) with
      | none => rs
      | some j =>
        match rs[j]? with
        | none => rs
        | some b => (rs.set i { a with rank := s }).set j { b with rank := a.rank }

/-- Modelled from the spec: exchange ranks with the rule holding the
next-lower rank (the immediate predecessor in sorted order); no-op when
the rule already holds the lowest rank. -/
def move_up (rs : List Rule) (i : Nat) : List Rule :=
  match rs[i]? with
  | none => rs
  | some a =>
    match ((rs.map Rule.rank).filter (fun x => decide (x < a.rank))).max? with
    | none => rs
    | some s =>
      match rs.findIdx? (fun b => decide (b.rank = s)) with
      | none => rs
      | some j =>
        match rs[j]? with
        | none => rs
        | some b => (rs.set i { a with rank := s }).set j { b with rank := a.rank }

/-- Insert a rule into a list kept ascending by rank. -/
def insertByRank (a : Rule) : List Rule → List Rule
  | [] => [a]
  | x :: xs => if a.rank ≤ x.rank then a :: x :: xs else x :: insertByRank a xs

/-- The store's default listing order: ascending by rank. -/
def sortByRank (l : List Rule) : List Rule :=
  l.foldr insertByRank []

end RuleSet

/-- The spec's rank-uniqueness invariant on a rule store. -/
def distinctRanks (rs : List Rule) : Prop :=
  (rs.map Rule.rank).Pairwise (fun x y => x ≠ y)

/-! ## Rule evaluation

Modelled from the spec, §4.4: a compiled rule carries its compiled URL
matcher and its IP matcher; `evaluate` walks the rules in ascending rank
order and returns the action of the first full match. -/

structure CompiledRule where
  matchesUrl : String → Bool
  ipMatches : String → Bool
  action : Action

namespace RuleSet

/-- Modelled from the spec: the action of the first rule (in ascending
rank order) whose URL pattern and IP group both match. -/
def evaluate (rules : List CompiledRule) (url ip : String) : Option Action :=
  (rules.find? (fun r => r.matchesUrl url && r.ipMatches ip)).map CompiledRule.action

/-- Modelled from the spec: the public decision function. -/
def is_restricted (rules : List CompiledRule) (url ip : String) : Bool :=
  decide (evaluate rules url ip = some Action.deny)

end RuleSet

/-! ## Middleware (translated from `iprestrict/middleware.py`)

`process_request` reads `request.path_info` and `request.META['REMOTE_ADDR']`
and raises `PermissionDenied` when the restrictor's `is_restricted` answers
true; otherwise it returns `None`. The restrictor is the imported
`IPRestrictor` collaborator, modelled as a boolean function. -/

structure HttpRequest where
  path_info : String
  remote_addr : String

/-- Outcome of `IPRestrictMiddleware.process_request`: either the implicit
`None` return (request proceeds) or the raised `PermissionDenied`. -/
inductive ProcessResult where
  | nothing : ProcessResult
  | permissionDenied : ProcessResult
deriving DecidableEq

/-- Translated from `middleware.py` lines 14-19. -/
def process_request (restrictor : String → String → Bool)
    (req : HttpRequest) : ProcessResult :=
  let url := req.path_info
  let client_ip := req.remote_addr
  if restrictor url client_ip then ProcessResult.permissionDenied
  else ProcessResult.nothing

end IPRestrict

namespace IPRestrict

/-! ## Concrete configurations taken from the spec's testable properties -/

/-- The range group `192.168.1.1–192.168.1.10`, `192.168.1.100–192.168.1.110`. -/
def localGroup : RangeGroup :=
  (load_ranges [⟨"192.168.1.1", some "192.168.1.10", none⟩,
                ⟨"192.168.1.100", some "192.168.1.110", none⟩]).getD ⟨[], []⟩

/-- The range group compiled from the aligned CIDR block `192.168.1.0/30`. -/
def cidrAligned : RangeGroup :=
  (load_ranges [⟨"192.168.1.0", none, some 30⟩]).getD ⟨[], []⟩

/-- The range group compiled from the misaligned CIDR block `192.168.1.2/30`. -/
def cidrMis : RangeGroup :=
  (load_ranges [⟨"192.168.1.2", none, some 30⟩]).getD ⟨[], []⟩

/-- The range group holding only the single addresses `::1` and `0.0.0.2`. -/
def mixedGroup : RangeGroup :=
  (load_ranges [⟨"::1", none, none⟩, ⟨"0.0.0.2", none, none⟩]).getD ⟨[], []⟩

/-- The range group for the CIDR block `10.0.0.0/8`. -/
def adminGroup : RangeGroup :=
  (load_ranges [⟨"10.0.0.0", none, some 8⟩]).getD ⟨[], []⟩

/-- The location group compiled from the entries `AU, HU` and `BR`. -/
def testLocGroup : LocationGroup :=
  ⟨load_locations ["AU, HU", "BR"]⟩

/-- Compiled form of the regular expression `^/admin/` under search
semantics: anchored at the start, it succeeds exactly on paths beginning
with `/admin/`. -/
def adminUrlMatch (s : String) : Bool :=
  List.isPrefixOf "/admin/".toList s.toList

/-- Rule A of the spec's end-to-end property: pattern `^/admin/`,
group `10.0.0.0/8`, action Deny. -/
def ruleA : CompiledRule :=
  { matchesUrl := adminUrlMatch
    ipMatches := adminGroup.matches
    action := Action.deny }

/-- The default allow-all rule: URL pattern matching every path, IP group
matching every address. -/
def defaultRule : CompiledRule :=
  { matchesUrl := fun _ => true
    ipMatches := fun _ => true
    action := Action.allow }

/-- Rule A ranked before the default allow-all rule. -/
def sampleRuleSet : List CompiledRule :=
  [ruleA, defaultRule]

/-- The stored rules of the reordering scenario: two created rules ranked
1 and 2 ahead of the default rule ranked last. -/
def sampleRules : List Rule :=
  [{ url_pattern := "1", ip_group := "ALL", action := Action.allow, rank := 1 },
   { url_pattern := "2", ip_group := "ALL", action := Action.allow, rank := 2 },
   { url_pattern := "ALL", ip_group := "ALL", action := Action.allow, rank := 3 }]

/-! ## Supporting lemmas -/

/-- Containment characterisation of `RangeGroup.matches`. -/
theorem RangeGroup.matches_iff (g : RangeGroup) (s : String) :
    g.matches s = true ↔
      ∃ fam n, parseIP s = some (fam, n) ∧
        ∃ r ∈ rangesOf g fam, r.1 ≤ n ∧ n ≤ r.2 := by
  unfold RangeGroup.matches
  cases h : parseIP s with
  | none => simp
  | some fn =>
    cases fn with
    | mk fam n =>
      simp only [List.any_eq_true, decide_eq_true_eq, Prod.ext_iff,
        Option.some_inj, Prod.exists]
      constructor
      · rintro ⟨a, b, hm, h1, h2⟩
        exact ⟨fam, n, ⟨rfl, rfl⟩, a, b, hm, h1, h2⟩
      · rintro ⟨f1, n1, ⟨hf, hn⟩, a, b, hm, h1, h2⟩
        subst hf; subst hn
        exact ⟨a, b, hm, h1, h2⟩

/-- `find?` returns the element at the first position where the predicate
holds. -/
theorem find?_eq_of_first (p : CompiledRule → Bool) :
    ∀ (rules : List CompiledRule) (i : Nat) (r : CompiledRule),
      rules[i]? = some r → p r = true →
      (∀ j, j < i → ∀ q, rules[j]? = some q → p q = false) →
      rules.find? p = some r := by
  intro rules
  induction rules with
  | nil => intro i r h; simp at h
  | cons x xs ih =>
    intro i r h hp hb
    cases i with
    | zero =>
      rw [List.getElem?_cons_zero, Option.some_inj] at h
      subst h
      simp [List.find?_cons, hp]
    | succ i =>
      have hx : p x = false := hb 0 (Nat.succ_pos _) x List.getElem?_cons_zero
      rw [List.getElem?_cons_succ] at h
      rw [List.find?_cons, hx]
      exact ih i r h hp
        (fun j hj q hq => hb (j + 1) (Nat.succ_lt_succ hj) q
          (by rw [List.getElem?_cons_succ]; exact hq))

/-- Every member is bounded by a `foldl max`. -/
theorem le_foldl_max (l : List Nat) : ∀ (b : Nat),
    (b ≤ l.foldl max b) ∧ (∀ a ∈ l, a ≤ l.foldl max b) := by
  induction l with
  | nil => intro b; simp
  | cons x xs ih =>
    intro b
    constructor
    · exact le_trans (le_max_left b x) (ih (max b x)).1
    · intro a ha
      rcases List.mem_cons.mp ha with h | h
      · subst h
        exact le_trans (le_max_right b a) (ih (max b a)).1
      · exact (ih (max b x)).2 a h

end IPRestrict

namespace IPRestrict

/-! ## Claim theorems -/

/-- C8: for every rule, `is_allowed` and `is_restricted` are pure
functions of the action, mutually exclusive and exhaustive over
{Allow, Deny}: `r.is_allowed = !r.is_restricted`. -/
theorem spec_c8 (r : Rule) : r.is_allowed = !r.is_restricted := by
  cases r with
  | mk pat grp act rk => cases act <;> rfl

/-- C9: updating a rule's URL pattern, IP group or action never changes
its rank. -/
theorem spec_c9 (r : Rule) (pat grp : String) (act : Action) :
    (RuleSet.update r pat grp act).rank = r.rank := rfl

/-- C10: `process_request` raises `PermissionDenied` exactly when the
restrictor's `is_restricted(path_info, REMOTE_ADDR)` is true, otherwise
returns `None`; it never produces any other outcome (in particular no
HTTP response of its own). -/
theorem spec_c10 (restrictor : String → String → Bool) (req : HttpRequest) :
    (process_request restrictor req = ProcessResult.permissionDenied ↔
      restrictor req.path_info req.remote_addr = true)
    ∧ (process_request restrictor req = ProcessResult.nothing ↔
      restrictor req.path_info req.remote_addr = false)
    ∧ (process_request restrictor req = ProcessResult.nothing ∨
      process_request restrictor req = ProcessResult.permissionDenied) := by
  cases h : restrictor req.path_info req.remote_addr <;>
    simp [process_request, h]

/-- C7: `LocationGroup.matches` is true iff the geolocation collaborator
resolves the IP to a code belonging to the compiled set of normalized
codes; no resolved code means no match; the group built from `AU, HU` and
`BR` matches IPs resolved to AU, HU or BR and not one resolved to FR. -/
theorem spec_c7 :
    (∀ (geoip : String → Option String) (g : LocationGroup) (ip : String),
        LocationGroup.matches geoip g ip = true ↔
          ∃ c, geoip ip = some c ∧ g.codes.contains c = true)
    ∧ (∀ (g : LocationGroup) (ip : String),
        LocationGroup.matches (fun _ => none) g ip = false)
    ∧ testLocGroup.codes = ["AU", "HU", "BR"]
    ∧ LocationGroup.matches (fun _ => some "AU") testLocGroup "192.168.1.1" = true
    ∧ LocationGroup.matches (fun _ => some "HU") testLocGroup "192.168.1.2" = true
    ∧ LocationGroup.matches (fun _ => some "BR") testLocGroup "192.168.1.3" = true
    ∧ LocationGroup.matches (fun _ => some "FR") testLocGroup "10.1.1.1" = false := by
  refine ⟨?_, ?_, by decide, by decide, by decide, by decide, by decide⟩
  · intro geoip g ip
    cases h : geoip ip with
    | none => simp [LocationGroup.matches, h]
    | some c => simp [LocationGroup.matches, h]
  · intro g ip
    rfl

/-- C5: an omitted rank is auto-assigned `max(existing ranks) + 1`; every
existing rank is strictly below the next auto-assigned rank; an explicit
rank is used as-is; the creation sequence auto, auto, explicit 10, auto
yields ranks 1, 2, 10, 11. -/
theorem spec_c5 :
    (∀ (rs : List Rule) (pat grp : String) (act : Action),
        RuleSet.create rs pat grp act none =
          rs ++ [{ url_pattern := pat, ip_group := grp, action := act,
                   rank := RuleSet.next_rank rs }])
    ∧ (∀ (rs : List Rule) (r : Rule), r ∈ rs → r.rank < RuleSet.next_rank rs)
    ∧ (∀ (rs : List Rule) (pat grp : String) (act : Action) (k : Nat),
        RuleSet.create rs pat grp act (some k) =
          rs ++ [{ url_pattern := pat, ip_group := grp, action := act, rank := k }])
    ∧ (RuleSet.create (RuleSet.create (RuleSet.create (RuleSet.create []
          "1" "ALL" Action.allow none) "2" "ALL" Action.allow none)
          "10" "ALL" Action.allow (some 10)) "10" "ALL" Action.allow none).map Rule.rank
        = [1, 2, 10, 11] := by
  refine ⟨?_, ?_, ?_, by decide⟩
  · intro rs pat grp act
    rfl
  · intro rs r hr
    exact Nat.lt_succ_of_le
      ((le_foldl_max (rs.map Rule.rank) 0).2 r.rank (List.mem_map.mpr ⟨r, hr, rfl⟩))
  · intro rs pat grp act k
    rfl

/-- C5 witness: the first stored rule's rank 1 is strictly below the next
auto-assigned rank of the three-rule sample store. -/
theorem spec_c5_witness :
    ({ url_pattern := "1", ip_group := "ALL", action := Action.allow,
       rank := 1 } : Rule).rank < RuleSet.next_rank sampleRules :=
  spec_c5.2.1 sampleRules _ (by decide)

/-- C2: `RangeGroup.matches` is false on every unparseable string; on a
valid address it is true iff some compiled range of the address's family
contains it inclusively; the group 192.168.1.1–.10 / .100–.110 matches
.1, .5, .10, .100, .105 and not .0, .11, .99. -/
theorem spec_c2 :
    (∀ (g : RangeGroup) (s : String), parseIP s = none → g.matches s = false)
    ∧ (∀ (g : RangeGroup) (s : String) (fam : IPFamily) (n : Nat),
        parseIP s = some (fam, n) →
        (g.matches s = true ↔ ∃ r ∈ rangesOf g fam, r.1 ≤ n ∧ n ≤ r.2))
    ∧ load_ranges [⟨"192.168.1.1", some "192.168.1.10", none⟩,
        ⟨"192.168.1.100", some "192.168.1.110", none⟩] = some localGroup
    ∧ localGroup.matches "192.168.1.1" = true
    ∧ localGroup.matches "192.168.1.5" = true
    ∧ localGroup.matches "192.168.1.10" = true
    ∧ localGroup.matches "192.168.1.100" = true
    ∧ localGroup.matches "192.168.1.105" = true
    ∧ localGroup.matches "192.168.1.0" = false
    ∧ localGroup.matches "192.168.1.11" = false
    ∧ localGroup.matches "192.168.1.99" = false := by
  refine ⟨?_, ?_, by decide, by decide, by decide, by decide, by decide,
    by decide, by decide, by decide, by decide⟩
  · intro g s h
    rw [Bool.eq_false_iff]
    intro hc
    rw [RangeGroup.matches_iff] at hc
    obtain ⟨fam, n, h1, -⟩ := hc
    rw [h] at h1
    cases h1
  · intro g s fam n h
    rw [RangeGroup.matches_iff]
    constructor
    · rintro ⟨f1, n1, h1, hr⟩
      rw [h] at h1
      simp only [Option.some_inj, Prod.mk.injEq] at h1
      obtain ⟨rfl, rfl⟩ := h1
      exact hr
    · intro hr
      exact ⟨fam, n, h, hr⟩

/-- C2 witness: the general clauses applied to the concrete group: an
unparseable string fails to match, and containment characterises the
match of 192.168.1.5 (numeric 3232235781). -/
theorem spec_c2_witness :
    RangeGroup.matches localGroup "not-an-ip" = false ∧
    (RangeGroup.matches localGroup "192.168.1.5" = true ↔
      ∃ r ∈ rangesOf localGroup IPFamily.v4, r.1 ≤ 3232235781 ∧ 3232235781 ≤ r.2) :=
  ⟨spec_c2.1 localGroup "not-an-ip" (by decide),
   spec_c2.2.1 localGroup "192.168.1.5" IPFamily.v4 3232235781 (by decide)⟩

/-- C3: a CIDR entry compiles to `[firstIP & mask, firstIP | ~mask]` with
the mask applied to `firstIP` exactly as given; both `192.168.1.0/30` and
the misaligned `192.168.1.2/30` compile to the same group, which matches
exactly 192.168.1.0 (3232235776) through 192.168.1.3 (3232235779) and
nothing else. -/
theorem spec_c3 :
    (∀ (ip : String) (fam : IPFamily) (n p : Nat),
        parseIP ip = some (fam, n) → p ≤ famBits fam →
        compileRange ⟨ip, none, some p⟩ =
          some (fam, n.land (maskOf fam p), n.lor (2 ^ (famBits fam - p) - 1)))
    ∧ load_ranges [⟨"192.168.1.0", none, some 30⟩] = some cidrAligned
    ∧ load_ranges [⟨"192.168.1.2", none, some 30⟩] = some cidrMis
    ∧ cidrAligned = cidrMis
    ∧ (∀ s : String, cidrAligned.matches s = true ↔
        ∃ n, parseIP s = some (IPFamily.v4, n) ∧ 3232235776 ≤ n ∧ n ≤ 3232235779) := by
  refine ⟨?_, by decide, by decide, by decide, ?_⟩
  · intro ip fam n p h hp
    simp [compileRange, h, hp]
  · intro s
    have hg : cidrAligned = ⟨[(3232235776, 3232235779)], []⟩ := by decide
    rw [RangeGroup.matches_iff, hg]
    constructor
    · rintro ⟨fam, n, h1, r, hr, hlo, hhi⟩
      cases fam
      · simp only [rangesOf, List.mem_singleton] at hr
        subst hr
        exact ⟨n, h1, hlo, hhi⟩
      · simp [rangesOf] at hr
    · rintro ⟨n, h1, hlo, hhi⟩
      exact ⟨IPFamily.v4, n, h1, (3232235776, 3232235779), by simp [rangesOf], hlo, hhi⟩

/-- C3 witness: the mask rule applied to `10.0.0.0/8`
(numeric 167772160). -/
theorem spec_c3_witness :
    compileRange ⟨"10.0.0.0", none, some 8⟩ =
      some (IPFamily.v4, Nat.land 167772160 (maskOf IPFamily.v4 8),
        Nat.lor 167772160 (2 ^ (famBits IPFamily.v4 - 8) - 1)) :=
  spec_c3.1 "10.0.0.0" IPFamily.v4 167772160 8 (by decide) (by decide)

/-- C6: matching is family-isolated — for an IPv4 address the IPv6 range
list is irrelevant and vice versa; the group holding only `::1` and
`0.0.0.2` matches exactly those two of the four probes. -/
theorem spec_c6 :
    (∀ (g : RangeGroup) (s : String) (n : Nat),
        parseIP s = some (IPFamily.v4, n) →
        g.matches s = RangeGroup.matches ⟨g.v4ranges, []⟩ s)
    ∧ (∀ (g : RangeGroup) (s : String) (n : Nat),
        parseIP s = some (IPFamily.v6, n) →
        g.matches s = RangeGroup.matches ⟨[], g.v6ranges⟩ s)
    ∧ load_ranges [⟨"::1", none, none⟩, ⟨"0.0.0.2", none, none⟩] = some mixedGroup
    ∧ mixedGroup.matches "::1" = true
    ∧ mixedGroup.matches "0.0.0.2" = true
    ∧ mixedGroup.matches "::2" = false
    ∧ mixedGroup.matches "0.0.0.1" = false := by
  refine ⟨?_, ?_, by decide, by decide, by decide, by decide, by decide⟩
  · intro g s n h
    unfold RangeGroup.matches
    rw [h]
    rfl
  · intro g s n h
    unfold RangeGroup.matches
    rw [h]
    rfl

/-- C6 witness: the IPv4 probe `0.0.0.1` (numeric 1) matches the mixed
group exactly as it matches its IPv4 half. -/
theorem spec_c6_witness :
    RangeGroup.matches mixedGroup "0.0.0.1" =
      RangeGroup.matches ⟨mixedGroup.v4ranges, []⟩ "0.0.0.1" :=
  spec_c6.1 mixedGroup "0.0.0.1" 1 (by decide)

/-- C1: evaluation is first-match-wins in ascending rank order — the
action returned is that of the first (lowest-ranked) rule matching both
URL and IP; with rule A (`^/admin/`, 10.0.0.0/8, Deny) ranked before the
default allow-all rule, `/admin/x` from 10.1.2.3 is restricted while
`/admin/x` from 8.8.8.8 and `/public` from 10.1.2.3 are not. -/
theorem spec_c1 :
    (∀ (rules : List CompiledRule) (url ip : String) (i : Nat) (r : CompiledRule),
        rules[i]? = some r →
        (r.matchesUrl url && r.ipMatches ip) = true →
        (∀ j, j < i → ∀ q, rules[j]? = some q →
          (q.matchesUrl url && q.ipMatches ip) = false) →
        RuleSet.evaluate rules url ip = some r.action)
    ∧ RuleSet.is_restricted sampleRuleSet "/admin/x" "10.1.2.3" = true
    ∧ RuleSet.is_restricted sampleRuleSet "/admin/x" "8.8.8.8" = false
    ∧ RuleSet.is_restricted sampleRuleSet "/public" "10.1.2.3" = false := by
  refine ⟨?_, by decide, by decide, by decide⟩
  intro rules url ip i r h hp hb
  unfold RuleSet.evaluate
  rw [find?_eq_of_first _ rules i r h hp hb]
  rfl

/-- C1 witness: the first-match clause applied to the sample rule set at
index 0 yields rule A's Deny action. -/
theorem spec_c1_witness :
    RuleSet.evaluate sampleRuleSet "/admin/x" "10.1.2.3" = some Action.deny :=
  spec_c1.1 sampleRuleSet "/admin/x" "10.1.2.3" 0 ruleA rfl (by decide)
    (fun j hj q _ => absurd hj (Nat.not_lt_zero j))

end IPRestrict

namespace IPRestrict

/-! ## Rank-swap lemmas for `move_up` / `move_down` -/

/-- An element read off by index is a member. -/
theorem mem_of_idx {α : Type _} {l : List α} {i : Nat} {a : α}
    (h : l[i]? = some a) : a ∈ l := by
  obtain ⟨hl, he⟩ := List.getElem?_eq_some.mp h
  exact he ▸ List.getElem_mem hl

/-- Writing back the element already stored is the identity. -/
theorem set_idx_self {α : Type _} {l : List α} {i : Nat} {a : α}
    (h : l[i]? = some a) : l.set i a = l := by
  apply List.ext_getElem?
  intro n
  by_cases hn : i = n
  · subst hn
    rw [List.getElem?_set_self', h]
    rfl
  · rw [List.getElem?_set_ne hn]

/-- Reading an index just written. -/
theorem getIdx_set {α : Type _} {l : List α} {i : Nat} {a b : α}
    (h : l[i]? = some a) : (l.set i b)[i]? = some b := by
  rw [List.getElem?_set_self', h]
  rfl

/-- Exchanging two entries of a duplicate-free list keeps it
duplicate-free. -/
theorem pairwise_ne_swap {R : List Nat} (hd : R.Pairwise (fun x y => x ≠ y))
    {i j : Nat} (hi : i < R.length) (hj : j < R.length) :
    ((R.set i (R[j])).set j (R[i])).Pairwise (fun x y => x ≠ y) := by
  have hne : ∀ k m, (hk : k < R.length) → (hm : m < R.length) → k ≠ m → R[k] ≠ R[m] := by
    intro k m hk hm hkm
    rcases Nat.lt_or_ge k m with h | h
    · exact (List.pairwise_iff_getElem.mp hd) k m hk hm h
    · have hmk : m < k := Nat.lt_of_le_of_ne h (fun e => hkm e.symm)
      exact Ne.symm ((List.pairwise_iff_getElem.mp hd) m k hm hk hmk)
  rw [List.pairwise_iff_getElem]
  intro k m hk2 hm2 hkm
  have hk : k < R.length := by simpa using hk2
  have hm : m < R.length := by simpa using hm2
  have hval : ∀ n (hn1 : n < ((R.set i (R[j])).set j (R[i])).length)
      (hn2 : n < R.length),
      ((R.set i (R[j])).set j (R[i]))[n] =
        if j = n then R[i] else if i = n then R[j] else R[n] := by
    intro n hn1 hn2
    rw [List.getElem_set, List.getElem_set]
  rw [hval k hk2 hk, hval m hm2 hm]
  split_ifs with h1 h2 h3 h2 h3 h4
  all_goals apply hne
  all_goals omega

/-- The first-match swap performed by `move_down` at the immediate
successor in rank order. -/
theorem move_down_eq_swap (rs : List Rule) (i j : Nat) (a b : Rule)
    (hd : distinctRanks rs)
    (hi : rs[i]? = some a) (hj : rs[j]? = some b)
    (hab : a.rank < b.rank)
    (hadj : ∀ x ∈ rs.map Rule.rank, a.rank < x → b.rank ≤ x) :
    RuleSet.move_down rs i =
      (rs.set i { a with rank := b.rank }).set j { b with rank := a.rank } := by
  obtain ⟨hjlen, hjget⟩ := List.getElem?_eq_some.mp hj
  have hmem : b.rank ∈ (rs.map Rule.rank).filter (fun x => decide (a.rank < x)) :=
    List.mem_filter.mpr ⟨List.mem_map.mpr ⟨b, mem_of_idx hj, rfl⟩, by simpa using hab⟩
  have hmin : ((rs.map Rule.rank).filter (fun x => decide (a.rank < x))).min? =
      some b.rank := by
    rw [List.min?_eq_some_iff']
    refine ⟨hmem, fun x hx => ?_⟩
    obtain ⟨hxm, hxlt⟩ := List.mem_filter.mp hx
    exact hadj x hxm (of_decide_eq_true hxlt)
  have hfind : rs.findIdx? (fun c => decide (c.rank = b.rank)) = some j := by
    rw [List.findIdx?_eq_some_iff_getElem]
    refine ⟨hjlen, ?_, ?_⟩
    · simp [hjget]
    · intro k hkj
      have hklen : k < rs.length := Nat.lt_trans hkj hjlen
      simp only [decide_eq_true_eq]
      intro heq
      have hp := (List.pairwise_iff_getElem.mp hd) k j
        (by simpa using hklen) (by simpa using hjlen) hkj
      rw [List.getElem_map, List.getElem_map, hjget] at hp
      exact hp heq
  simp only [RuleSet.move_down, hi, hmin, hfind, hj]

/-- The first-match swap performed by `move_up` at the immediate
predecessor in rank order. -/
theorem move_up_eq_swap (rs : List Rule) (i j : Nat) (a b : Rule)
    (hd : distinctRanks rs)
    (hi : rs[i]? = some a) (hj : rs[j]? = some b)
    (hab : b.rank < a.rank)
    (hadj : ∀ x ∈ rs.map Rule.rank, x < a.rank → x ≤ b.rank) :
    RuleSet.move_up rs i =
      (rs.set i { a with rank := b.rank }).set j { b with rank := a.rank } := by
  obtain ⟨hjlen, hjget⟩ := List.getElem?_eq_some.mp hj
  have hmem : b.rank ∈ (rs.map Rule.rank).filter (fun x => decide (x < a.rank)) :=
    List.mem_filter.mpr ⟨List.mem_map.mpr ⟨b, mem_of_idx hj, rfl⟩, by simpa using hab⟩
  have hmax : ((rs.map Rule.rank).filter (fun x => decide (x < a.rank))).max? =
      some b.rank := by
    rw [List.max?_eq_some_iff']
    refine ⟨hmem, fun x hx => ?_⟩
    obtain ⟨hxm, hxlt⟩ := List.mem_filter.mp hx
    exact hadj x hxm (of_decide_eq_true hxlt)
  have hfind : rs.findIdx? (fun c => decide (c.rank = b.rank)) = some j := by
    rw [List.findIdx?_eq_some_iff_getElem]
    refine ⟨hjlen, ?_, ?_⟩
    · simp [hjget]
    · intro k hkj
      have hklen : k < rs.length := Nat.lt_trans hkj hjlen
      simp only [decide_eq_true_eq]
      intro heq
      have hp := (List.pairwise_iff_getElem.mp hd) k j
        (by simpa using hklen) (by simpa using hjlen) hkj
      rw [List.getElem_map, List.getElem_map, hjget] at hp
      exact hp heq
  simp only [RuleSet.move_up, hi, hmax, hfind, hj]

/-- Undoing the double-write of a rank swap restores the list. -/
theorem unswap (rs : List Rule) (i j : Nat) (a b a2 b2 : Rule)
    (hi : rs[i]? = some a) (hj : rs[j]? = some b) (hij : i ≠ j) :
    ((((rs.set i a2).set j b2).set i a).set j b) = rs := by
  rw [List.set_comm _ _ _ (Ne.symm hij), List.set_set, List.set_set,
    set_idx_self hi, set_idx_self hj]

end IPRestrict

namespace IPRestrict

/-- When some rule ranks above `a`, the successor candidates have a
minimum. -/
theorem exists_succ_min (rs : List Rule) (a : Rule)
    (hex : ∃ c ∈ rs, a.rank < c.rank) :
    ∃ s, ((rs.map Rule.rank).filter (fun x => decide (a.rank < x))).min? = some s := by
  obtain ⟨c, hc, hlt⟩ := hex
  have hmem : c.rank ∈ (rs.map Rule.rank).filter (fun x => decide (a.rank < x)) :=
    List.mem_filter.mpr ⟨List.mem_map.mpr ⟨c, hc, rfl⟩, by simpa using hlt⟩
  cases hmin : ((rs.map Rule.rank).filter (fun x => decide (a.rank < x))).min? with
  | none =>
    rw [List.min?_eq_none_iff] at hmin
    rw [hmin] at hmem
    cases hmem
  | some s => exact ⟨s, rfl⟩

/-- When some rule ranks below `a`, the predecessor candidates have a
maximum. -/
theorem exists_pred_max (rs : List Rule) (a : Rule)
    (hex : ∃ c ∈ rs, c.rank < a.rank) :
    ∃ s, ((rs.map Rule.rank).filter (fun x => decide (x < a.rank))).max? = some s := by
  obtain ⟨c, hc, hlt⟩ := hex
  have hmem : c.rank ∈ (rs.map Rule.rank).filter (fun x => decide (x < a.rank)) :=
    List.mem_filter.mpr ⟨List.mem_map.mpr ⟨c, hc, rfl⟩, by simpa using hlt⟩
  cases hmax : ((rs.map Rule.rank).filter (fun x => decide (x < a.rank))).max? with
  | none =>
    rw [List.max?_eq_none_iff] at hmax
    rw [hmax] at hmem
    cases hmem
  | some s => exact ⟨s, rfl⟩

/-- `move_down` swaps with the immediate successor and `move_up` undoes
it. -/
theorem down_then_up (rs : List Rule) (i : Nat) (a : Rule)
    (hd : distinctRanks rs) (hi : rs[i]? = some a)
    (hex : ∃ c ∈ rs, a.rank < c.rank) :
    ∃ j b, rs[j]? = some b ∧ j ≠ i ∧ a.rank < b.rank ∧
      (∀ x ∈ rs.map Rule.rank, a.rank < x → b.rank ≤ x) ∧
      RuleSet.move_down rs i =
        (rs.set i { a with rank := b.rank }).set j { b with rank := a.rank } ∧
      RuleSet.move_up (RuleSet.move_down rs i) i = rs := by
  obtain ⟨hilen, higet⟩ := List.getElem?_eq_some.mp hi
  obtain ⟨s, hs⟩ := exists_succ_min rs a hex
  obtain ⟨hsmem, hsmin⟩ := List.min?_eq_some_iff'.mp hs
  obtain ⟨hsR, hsdec⟩ := List.mem_filter.mp hsmem
  have hslt : a.rank < s := of_decide_eq_true hsdec
  obtain ⟨b, hbmem, hbrank⟩ := List.mem_map.mp hsR
  obtain ⟨j, hjlen, hjget⟩ := List.mem_iff_getElem.mp hbmem
  have hj : rs[j]? = some b := by rw [List.getElem?_eq_getElem hjlen, hjget]
  subst hbrank
  have hadj : ∀ x ∈ rs.map Rule.rank, a.rank < x → b.rank ≤ x := by
    intro x hx hax
    exact hsmin x (List.mem_filter.mpr ⟨hx, by simpa using hax⟩)
  have hij : j ≠ i := by
    intro he
    subst he
    rw [hi] at hj
    injection hj with hj
    rw [hj] at hslt
    exact absurd hslt (lt_irrefl _)
  have hswap := move_down_eq_swap rs i j a b hd hi hj hslt hadj
  refine ⟨j, b, hj, hij, hslt, hadj, hswap, ?_⟩
  have hWi : ((rs.set i { a with rank := b.rank }).set j { b with rank := a.rank })[i]? =
      some { a with rank := b.rank } := by
    rw [List.getElem?_set_ne hij]
    exact getIdx_set hi
  have hWj : ((rs.set i { a with rank := b.rank }).set j { b with rank := a.rank })[j]? =
      some { b with rank := a.rank } := by
    rw [List.getElem?_set_self', List.getElem?_set_ne (Ne.symm hij), hj]
    rfl
  have hWmap : ((rs.set i { a with rank := b.rank }).set j { b with rank := a.rank }).map
      Rule.rank = ((rs.map Rule.rank).set i b.rank).set j a.rank := by
    rw [List.map_set, List.map_set]
  have hilen2 : i < (rs.map Rule.rank).length := by simpa using hilen
  have hjlen2 : j < (rs.map Rule.rank).length := by simpa using hjlen
  have hRi : (rs.map Rule.rank)[i] = a.rank := by
    rw [List.getElem_map, higet]
  have hRj : (rs.map Rule.rank)[j] = b.rank := by
    rw [List.getElem_map, hjget]
  have hWd : distinctRanks
      ((rs.set i { a with rank := b.rank }).set j { b with rank := a.rank }) := by
    unfold distinctRanks
    rw [hWmap, ← hRi, ← hRj]
    exact pairwise_ne_swap hd (by simpa using hilen) (by simpa using hjlen)
  have hWadj : ∀ x ∈ ((rs.set i { a with rank := b.rank }).set j
      { b with rank := a.rank }).map Rule.rank,
      x < ({ a with rank := b.rank } : Rule).rank →
      x ≤ ({ b with rank := a.rank } : Rule).rank := by
    intro x hx hxlt
    rw [hWmap] at hx
    rcases List.mem_or_eq_of_mem_set hx with hx2 | rfl
    · rcases List.mem_or_eq_of_mem_set hx2 with hx3 | rfl
      · by_contra hc
        push_neg at hc
        exact absurd hxlt (not_lt_of_ge (hadj x hx3 hc))
      · exact absurd hxlt (lt_irrefl _)
    · exact le_refl _
  have hup := move_up_eq_swap
    ((rs.set i { a with rank := b.rank }).set j { b with rank := a.rank }) i j
    { a with rank := b.rank } { b with rank := a.rank } hWd hWi hWj hslt hWadj
  rw [hswap, hup]
  have e1 : ({ ({ a with rank := b.rank } : Rule) with
      rank := ({ b with rank := a.rank } : Rule).rank } : Rule) = a := rfl
  have e2 : ({ ({ b with rank := a.rank } : Rule) with
      rank := ({ a with rank := b.rank } : Rule).rank } : Rule) = b := rfl
  rw [e1, e2]
  exact unswap rs i j a b _ _ hi hj (Ne.symm hij)

/-- `move_up` swaps with the immediate predecessor and `move_down` undoes
it. -/
theorem up_then_down (rs : List Rule) (i : Nat) (a : Rule)
    (hd : distinctRanks rs) (hi : rs[i]? = some a)
    (hex : ∃ c ∈ rs, c.rank < a.rank) :
    ∃ j b, rs[j]? = some b ∧ j ≠ i ∧ b.rank < a.rank ∧
      (∀ x ∈ rs.map Rule.rank, x < a.rank → x ≤ b.rank) ∧
      RuleSet.move_up rs i =
        (rs.set i { a with rank := b.rank }).set j { b with rank := a.rank } ∧
      RuleSet.move_down (RuleSet.move_up rs i) i = rs := by
  obtain ⟨hilen, higet⟩ := List.getElem?_eq_some.mp hi
  obtain ⟨s, hs⟩ := exists_pred_max rs a hex
  obtain ⟨hsmem, hsmax⟩ := List.max?_eq_some_iff'.mp hs
  obtain ⟨hsR, hsdec⟩ := List.mem_filter.mp hsmem
  have hslt : s < a.rank := of_decide_eq_true hsdec
  obtain ⟨b, hbmem, hbrank⟩ := List.mem_map.mp hsR
  obtain ⟨j, hjlen, hjget⟩ := List.mem_iff_getElem.mp hbmem
  have hj : rs[j]? = some b := by rw [List.getElem?_eq_getElem hjlen, hjget]
  subst hbrank
  have hadj : ∀ x ∈ rs.map Rule.rank, x < a.rank → x ≤ b.rank := by
    intro x hx hax
    exact hsmax x (List.mem_filter.mpr ⟨hx, by simpa using hax⟩)
  have hij : j ≠ i := by
    intro he
    subst he
    rw [hi] at hj
    injection hj with hj
    rw [hj] at hslt
    exact absurd hslt (lt_irrefl _)
  have hswap := move_up_eq_swap rs i j a b hd hi hj hslt hadj
  refine ⟨j, b, hj, hij, hslt, hadj, hswap, ?_⟩
  have hWi : ((rs.set i { a with rank := b.rank }).set j { b with rank := a.rank })[i]? =
      some { a with rank := b.rank } := by
    rw [List.getElem?_set_ne hij]
    exact getIdx_set hi
  have hWj : ((rs.set i { a with rank := b.rank }).set j { b with rank := a.rank })[j]? =
      some { b with rank := a.rank } := by
    rw [List.getElem?_set_self', List.getElem?_set_ne (Ne.symm hij), hj]
    rfl
  have hWmap : ((rs.set i { a with rank := b.rank }).set j { b with rank := a.rank }).map
      Rule.rank = ((rs.map Rule.rank).set i b.rank).set j a.rank := by
    rw [List.map_set, List.map_set]
  have hilen2 : i < (rs.map Rule.rank).length := by simpa using hilen
  have hjlen2 : j < (rs.map Rule.rank).length := by simpa using hjlen
  have hRi : (rs.map Rule.rank)[i] = a.rank := by
    rw [List.getElem_map, higet]
  have hRj : (rs.map Rule.rank)[j] = b.rank := by
    rw [List.getElem_map, hjget]
  have hWd : distinctRanks
      ((rs.set i { a with rank := b.rank }).set j { b with rank := a.rank }) := by
    unfold distinctRanks
    rw [hWmap, ← hRi, ← hRj]
    exact pairwise_ne_swap hd (by simpa using hilen) (by simpa using hjlen)
  have hWadj : ∀ x ∈ ((rs.set i { a with rank := b.rank }).set j
      { b with rank := a.rank }).map Rule.rank,
      ({ a with rank := b.rank } : Rule).rank < x →
      ({ b with rank := a.rank } : Rule).rank ≤ x := by
    intro x hx hxlt
    rw [hWmap] at hx
    rcases List.mem_or_eq_of_mem_set hx with hx2 | rfl
    · rcases List.mem_or_eq_of_mem_set hx2 with hx3 | rfl
      · by_contra hc
        push_neg at hc
        exact absurd hxlt (not_lt_of_ge (hadj x hx3 hc))
      · exact absurd hxlt (lt_irrefl _)
    · exact le_refl _
  have hdown := move_down_eq_swap
    ((rs.set i { a with rank := b.rank }).set j { b with rank := a.rank }) i j
    { a with rank := b.rank } { b with rank := a.rank } hWd hWi hWj hslt hWadj
  rw [hswap, hdown]
  have e1 : ({ ({ a with rank := b.rank } : Rule) with
      rank := ({ b with rank := a.rank } : Rule).rank } : Rule) = a := rfl
  have e2 : ({ ({ b with rank := a.rank } : Rule) with
      rank := ({ a with rank := b.rank } : Rule).rank } : Rule) = b := rfl
  rw [e1, e2]
  exact unswap rs i j a b _ _ hi hj (Ne.symm hij)

/-- `move_up` on the lowest-ranked rule is a no-op. -/
theorem move_up_noop (rs : List Rule) (i : Nat) (a : Rule)
    (hi : rs[i]? = some a) (hmin : ∀ c ∈ rs, a.rank ≤ c.rank) :
    RuleSet.move_up rs i = rs := by
  have hfil : (rs.map Rule.rank).filter (fun x => decide (x < a.rank)) = [] := by
    rw [List.filter_eq_nil_iff]
    intro x hx
    obtain ⟨c, hc, rfl⟩ := List.mem_map.mp hx
    simpa using Nat.not_lt.mpr (hmin c hc)
  simp only [RuleSet.move_up, hi, hfil, List.max?_nil]

/-- `move_down` on the highest-ranked rule is a no-op. -/
theorem move_down_noop (rs : List Rule) (i : Nat) (a : Rule)
    (hi : rs[i]? = some a) (hmax : ∀ c ∈ rs, c.rank ≤ a.rank) :
    RuleSet.move_down rs i = rs := by
  have hfil : (rs.map Rule.rank).filter (fun x => decide (a.rank < x)) = [] := by
    rw [List.filter_eq_nil_iff]
    intro x hx
    obtain ⟨c, hc, rfl⟩ := List.mem_map.mp hx
    simpa using Nat.not_lt.mpr (hmax c hc)
  simp only [RuleSet.move_down, hi, hfil, List.min?_nil]

end IPRestrict

namespace IPRestrict

/-- C4: `move_up` on the lowest-ranked rule and `move_down` on the
highest-ranked rule are no-ops; otherwise they exchange ranks exactly
with the adjacent rule in sorted order and are mutual inverses; the swap
is unconditional with respect to the default rule, so two `move_down`
calls on the first rule displace the default rule from last position. -/
theorem spec_c4 :
    (∀ (rs : List Rule) (i : Nat) (a : Rule), rs[i]? = some a →
        (∀ b ∈ rs, a.rank ≤ b.rank) → RuleSet.move_up rs i = rs)
    ∧ (∀ (rs : List Rule) (i : Nat) (a : Rule), rs[i]? = some a →
        (∀ b ∈ rs, b.rank ≤ a.rank) → RuleSet.move_down rs i = rs)
    ∧ (∀ (rs : List Rule) (i : Nat) (a : Rule), distinctRanks rs →
        rs[i]? = some a → (∃ c ∈ rs, a.rank < c.rank) →
        ∃ j b, rs[j]? = some b ∧ j ≠ i ∧ a.rank < b.rank ∧
          (∀ x ∈ rs.map Rule.rank, a.rank < x → b.rank ≤ x) ∧
          RuleSet.move_down rs i =
            (rs.set i { a with rank := b.rank }).set j { b with rank := a.rank } ∧
          RuleSet.move_up (RuleSet.move_down rs i) i = rs)
    ∧ (∀ (rs : List Rule) (i : Nat) (a : Rule), distinctRanks rs →
        rs[i]? = some a → (∃ c ∈ rs, c.rank < a.rank) →
        ∃ j b, rs[j]? = some b ∧ j ≠ i ∧ b.rank < a.rank ∧
          (∀ x ∈ rs.map Rule.rank, x < a.rank → x ≤ b.rank) ∧
          RuleSet.move_up rs i =
            (rs.set i { a with rank := b.rank }).set j { b with rank := a.rank } ∧
          RuleSet.move_down (RuleSet.move_up rs i) i = rs)
    ∧ (RuleSet.sortByRank (RuleSet.move_down (RuleSet.move_down sampleRules 0) 0)).map
        Rule.url_pattern = ["2", "ALL", "1"] :=
  ⟨move_up_noop, move_down_noop, down_then_up, up_then_down, by decide⟩

/-- C4 witness: on the concrete three-rule store, `move_up` of the first
rule and `move_down` of the last rule are no-ops, and each move of an
inner rule is undone by the opposite move. -/
theorem spec_c4_witness :
    RuleSet.move_up sampleRules 0 = sampleRules ∧
    RuleSet.move_down sampleRules 2 = sampleRules ∧
    RuleSet.move_up (RuleSet.move_down sampleRules 0) 0 = sampleRules ∧
    RuleSet.move_down (RuleSet.move_up sampleRules 1) 1 = sampleRules := by
  refine ⟨?_, ?_, ?_, ?_⟩
  · exact spec_c4.1 sampleRules 0
      { url_pattern := "1", ip_group := "ALL", action := Action.allow, rank := 1 }
      rfl (by decide)
  · exact spec_c4.2.1 sampleRules 2
      { url_pattern := "ALL", ip_group := "ALL", action := Action.allow, rank := 3 }
      rfl (by decide)
  · obtain ⟨j, b, -, -, -, -, -, h⟩ := spec_c4.2.2.1 sampleRules 0
      { url_pattern := "1", ip_group := "ALL", action := Action.allow, rank := 1 }
      (by show (sampleRules.map Rule.rank).Pairwise (fun x y => x ≠ y); decide)
      rfl (by decide)
    exact h
  · obtain ⟨j, b, -, -, -, -, -, h⟩ := spec_c4.2.2.2.1 sampleRules 1
      { url_pattern := "2", ip_group := "ALL", action := Action.allow, rank := 2 }
      (by show (sampleRules.map Rule.rank).Pairwise (fun x y => x ≠ y); decide)
      rfl (by decide)
    exact h

end IPRestrict
